import Mathlib

/-!
Verification of the token-bucket rate limiter (`token_bucket.go`).

The Go code keeps a mutable `TokenBucket` struct with fields
`rate`, `max_tokens`, `tokens` (all `float64`) and `lastUpdated`
(a timestamp), guarded by a mutex.  We shallow-embed the struct as a
record over `ℚ` (timestamps are modelled as rational seconds); every
mutating method becomes a pure function that additionally takes the
value of `time.Now()` at the moment the method reads the clock, because
the Go code samples the clock exactly once per lock acquisition
(inside `refillBucket`).  `Wait`'s loop is driven by a finite schedule:
one entry per loop iteration, giving the clock value at that iteration
and which arm of the `select` fires (`true` = the context's `Done`
channel, `false` = the `time.After` timer).  The mutex makes each
locked region atomic, so any concurrent history is a sequence of these
atomic steps.

Construction-time float pathology (division by a zero period yielding
`+Inf`) cannot be expressed in `ℚ`, so the constructor is additionally
embedded with an explicit IEEE-style value type `GoFloat` whose
division has the float zero-divisor behaviour; only the `rate` field
can become non-finite in the Go code, so only it uses `GoFloat` there.
-/

namespace RateLimiter

/-- The `TokenBucket` struct of the Go source, with `float64` fields read
as exact rationals and the timestamp as rational seconds.  The mutex is
not a datum; it is modelled by treating each locked region as atomic. -/
structure TokenBucket where
  rate : ℚ
  max_tokens : ℚ
  tokens : ℚ
  lastUpdated : ℚ
deriving DecidableEq, Repr

/-- `refillBucket` from the source: sample `now`, add
`elapsed * rate` to `tokens`, cap at `max_tokens` from above (the code
only caps the top, it never floors at zero), and stamp `lastUpdated`. -/
def refillBucket (tb : TokenBucket) (now : ℚ) : TokenBucket :=
  let elapsed := now - tb.lastUpdated
  let t := tb.tokens + elapsed * tb.rate
  { tb with
    tokens := if t > tb.max_tokens then tb.max_tokens else t
    lastUpdated := now }

/-- `Allow` from the source: under the lock, refill, then admit
(consume `1.0` and return `true`) iff at least one full token is
available; otherwise return `false` with the refilled state intact. -/
def Allow (tb : TokenBucket) (now : ℚ) : Bool × TokenBucket :=
  let r := refillBucket tb now
  if 1 ≤ r.tokens then (true, { r with tokens := r.tokens - 1 })
  else (false, r)

/-- Outcome of a `Wait` run: `success` models returning `nil`,
`cancelled` models returning `ctx.Err()`, and `pending` means the
supplied schedule ended while the Go loop would still be running. -/
inductive WaitOutcome where
  | success
  | cancelled
  | pending
deriving DecidableEq, Repr

/-- Go's `float64 → int64` conversion (used by
`time.Duration(...)`) truncates toward zero. -/
def goTrunc (q : ℚ) : ℤ := if 0 ≤ q then ⌊q⌋ else ⌈q⌉

/-- The sleep length computed by `Wait` when no token is available:
`time.Duration(tokensNeeded / tb.rate * float64(time.Second))`, i.e.
`(1 - tokens) / rate` seconds scaled to nanoseconds and truncated. -/
def waitDurationNs (tokens rate : ℚ) : ℤ :=
  goTrunc ((1 - tokens) / rate * 1000000000)

/-- `Wait` from the source, driven by a schedule with one entry per
loop iteration: the clock value read by that iteration's
`refillBucket`, and whether `ctx.Done()` fires before the
`time.After` timer in that iteration's `select`.  Returns the outcome,
the final bucket state, and the list of sleep durations the loop
computed (one per iteration that found `tokens < 1`). -/
def Wait (tb : TokenBucket) : List (ℚ × Bool) → WaitOutcome × TokenBucket × List ℤ
  | [] => (.pending, tb, [])
  | (now, ctxFires) :: rest =>
    let r := refillBucket tb now
    if 1 ≤ r.tokens then (.success, { r with tokens := r.tokens - 1 }, [])
    else
      let d := waitDurationNs r.tokens r.rate
      if ctxFires then (.cancelled, r, [d])
      else
        let (o, tb2, ds) := Wait r rest
        (o, tb2, d :: ds)

/-- `NewTokenBucket` from the source, in the rational model: the period
is the Go `time.Duration` (an integer nanosecond count), `per.Seconds()`
divides it by `10^9`, and `rate = float64(maxOps) / per.Seconds()`.
The bucket starts full at `maxBucketSize`. -/
def NewTokenBucket (maxOps perNs maxBucketSize : ℤ) (now : ℚ) : TokenBucket :=
  { rate := (maxOps : ℚ) / ((perNs : ℚ) / 1000000000)
    max_tokens := (maxBucketSize : ℚ)
    tokens := (maxBucketSize : ℚ)
    lastUpdated := now }

/-- IEEE-style value of a Go `float64` whose magnitude we track
exactly: finite rationals plus the infinities and NaN that division by
zero produces. -/
inductive GoFloat where
  | fin (q : ℚ)
  | posInf
  | negInf
  | nan
deriving DecidableEq, Repr

/-- Go `float64` division restricted to finite operands: a nonzero
divisor gives the exact quotient; a zero divisor gives `±Inf` by the
sign of the dividend, or NaN for `0/0`. -/
def goDiv (a b : ℚ) : GoFloat :=
  if b = 0 then
    if a = 0 then .nan
    else if 0 < a then .posInf
    else .negInf
  else .fin (a / b)

/-- Whether a Go float compares `< 0` (NaN comparisons are false). -/
def GoFloat.isNeg : GoFloat → Bool
  | .fin q => decide (q < 0)
  | .negInf => true
  | _ => false

/-- The `TokenBucket` struct with the `rate` field kept at Go-float
precision, for reasoning about the unvalidated constructor. -/
structure TokenBucketF where
  rate : GoFloat
  max_tokens : ℚ
  tokens : ℚ
  lastUpdated : ℚ
deriving DecidableEq, Repr

/-- `NewTokenBucket` from the source with the rate division carried
out in Go-float semantics: `rate = float64(maxOps) / per.Seconds()`
with no validation of any argument, and the function always returns an
instance (there is no error or panic path in its body). -/
def NewTokenBucketF (maxOps perNs maxBucketSize : ℤ) (now : ℚ) : TokenBucketF :=
  { rate := goDiv (maxOps : ℚ) ((perNs : ℚ) / 1000000000)
    max_tokens := (maxBucketSize : ℚ)
    tokens := (maxBucketSize : ℚ)
    lastUpdated := now }

/-- The bucket-state invariant claimed by the spec. -/
def Inv (tb : TokenBucket) : Prop :=
  0 ≤ tb.tokens ∧ tb.tokens ≤ tb.max_tokens

instance (tb : TokenBucket) : Decidable (Inv tb) := by
  unfold Inv; infer_instance

/-- Schedule times are chronological: each iteration's clock reading is
at or after the previous one (starting from the bucket's
`lastUpdated`), i.e. a non-decreasing clock. -/
def Chrono : ℚ → List (ℚ × Bool) → Prop
  | _, [] => True
  | t, (now, _) :: rest => t ≤ now ∧ Chrono now rest

instance (t : ℚ) (s : List (ℚ × Bool)) : Decidable (Chrono t s) := by
  induction s generalizing t with
  | nil => exact .isTrue trivial
  | cons hd tl ih => exact @instDecidableAnd _ _ _ (ih hd.1)

/-- Composition of bare refill steps at the given clock readings, with
no token ever consumed; the shape of any `Wait` run that never admits. -/
def refillOnly (tb : TokenBucket) : List ℚ → TokenBucket
  | [] => tb
  | t :: ts => refillOnly (refillBucket tb t) ts

/-- `n` successive `Allow` calls against the same bucket, all reading
the same clock value `now` (no time passes between them); returns the
list of boolean results in call order. -/
def allowN (tb : TokenBucket) (now : ℚ) : ℕ → List Bool
  | 0 => []
  | n + 1 =>
    let (b, tb2) := Allow tb now
    b :: allowN tb2 now n

/-- A concrete bucket for witnesses: rate 1 token/s, capacity 5,
2 tokens available, last updated at time 0. -/
def tbTwo : TokenBucket :=
  { rate := 1, max_tokens := 5, tokens := 2, lastUpdated := 0 }

/-- A concrete bucket for witnesses: rate 1 token/s, capacity 5,
half a token available, last updated at time 0. -/
def tbLow : TokenBucket :=
  { rate := 1, max_tokens := 5, tokens := 1/2, lastUpdated := 0 }

/-- The capped refill value is exactly `min max_tokens (...)`. -/
theorem refill_tokens_eq_min (tb : TokenBucket) (now : ℚ) :
    (refillBucket tb now).tokens
      = min tb.max_tokens (tb.tokens + (now - tb.lastUpdated) * tb.rate) := by
  unfold refillBucket
  rcases le_or_lt (tb.tokens + (now - tb.lastUpdated) * tb.rate) tb.max_tokens with h | h
  · simp [not_lt.mpr h, min_eq_right h]
  · simp [h, min_eq_left h.le]

/-- C1: on every access — `Allow` or a `Wait` iteration — the refill
step runs first under the lock, setting
`tokens = min(maxTokens, tokens + elapsed * rate)` with `elapsed` the
seconds since `lastUpdated`, and then stamping `lastUpdated := now`;
`Allow` and each `Wait` iteration are exactly admission applied to the
refilled state. -/
theorem refill_step_first_min_formula (tb : TokenBucket) (now : ℚ) :
    (refillBucket tb now).tokens
        = min tb.max_tokens (tb.tokens + (now - tb.lastUpdated) * tb.rate) ∧
    (refillBucket tb now).lastUpdated = now ∧
    Allow tb now
        = (if 1 ≤ (refillBucket tb now).tokens then
             (true, { refillBucket tb now with tokens := (refillBucket tb now).tokens - 1 })
           else (false, refillBucket tb now)) ∧
    ∀ (ev : Bool) (rest : List (ℚ × Bool)),
      Wait tb ((now, ev) :: rest)
        = (if 1 ≤ (refillBucket tb now).tokens then
             (.success, { refillBucket tb now with tokens := (refillBucket tb now).tokens - 1 },
               ([] : List ℤ))
           else if ev then
             (.cancelled, refillBucket tb now,
               [waitDurationNs (refillBucket tb now).tokens (refillBucket tb now).rate])
           else
             ((Wait (refillBucket tb now) rest).1, (Wait (refillBucket tb now) rest).2.1,
               waitDurationNs (refillBucket tb now).tokens (refillBucket tb now).rate
                 :: (Wait (refillBucket tb now) rest).2.2)) := by
  refine ⟨refill_tokens_eq_min tb now, rfl, rfl, ?_⟩
  intro ev rest
  rcases h : Wait (refillBucket tb now) rest with ⟨o, tb2, ds⟩
  by_cases h1 : 1 ≤ (refillBucket tb now).tokens <;> cases ev <;> simp [Wait, h1, h]

/-- C3: `Allow` refills first; with at least one token it consumes
exactly `1.0` and returns `true`, otherwise it returns `false` and the
token count is exactly the refilled value, untouched. -/
theorem allow_admission (tb : TokenBucket) (now : ℚ) :
    (1 ≤ (refillBucket tb now).tokens →
      (Allow tb now).1 = true ∧
      (Allow tb now).2 = { refillBucket tb now with
                            tokens := (refillBucket tb now).tokens - 1 }) ∧
    ((refillBucket tb now).tokens < 1 →
      (Allow tb now).1 = false ∧ (Allow tb now).2 = refillBucket tb now) := by
  constructor <;> intro h
  · simp [Allow, h]
  · simp [Allow, not_le.mpr h]

/-- Witness for C3 at a concrete bucket: 2 tokens, zero elapsed time,
admission succeeds and consumes exactly one token. -/
theorem allow_admission_witness :
    (Allow tbTwo 0).1 = true ∧
    (Allow tbTwo 0).2 = { refillBucket tbTwo 0 with
                            tokens := (refillBucket tbTwo 0).tokens - 1 } :=
  (allow_admission tbTwo 0).1 (by norm_num [refillBucket, tbTwo])

/-- C8: the refill step is idempotent in elapsed time — running it a
second time at the same clock value changes nothing at all (the
timestamp is already `now`). -/
theorem refill_idempotent (tb : TokenBucket) (now : ℚ) :
    refillBucket (refillBucket tb now) now = refillBucket tb now := by
  unfold refillBucket
  simp only [sub_self, zero_mul, add_zero]
  split <;> simp_all

/-- C10: when the refilled token count is at least `1.0`, `Wait`
returns success and consumes one token even though the context is
already cancelled (`ctx.Done` ready at the very first `select`),
because the token check precedes any look at the cancellation
signal. -/
theorem wait_token_check_precedes_cancellation (tb : TokenBucket) (now : ℚ)
    (rest : List (ℚ × Bool)) (h : 1 ≤ (refillBucket tb now).tokens) :
    Wait tb ((now, true) :: rest)
      = (.success, { refillBucket tb now with
                      tokens := (refillBucket tb now).tokens - 1 }, []) := by
  simp [Wait, h]

/-- Witness for C10: a bucket holding 2 tokens admits through `Wait`
at once even with the cancellation signal already pending. -/
theorem wait_token_check_precedes_cancellation_witness :
    Wait tbTwo [(0, true)]
      = (.success, { refillBucket tbTwo 0 with
                      tokens := (refillBucket tbTwo 0).tokens - 1 }, []) :=
  wait_token_check_precedes_cancellation tbTwo 0 [] (by norm_num [refillBucket, tbTwo])

/-- Refill never touches the capacity field. -/
theorem refill_max_eq (tb : TokenBucket) (now : ℚ) :
    (refillBucket tb now).max_tokens = tb.max_tokens := rfl

/-- Refill never touches the rate field. -/
theorem refill_rate_eq (tb : TokenBucket) (now : ℚ) :
    (refillBucket tb now).rate = tb.rate := rfl

/-- Refill stamps the clock reading it was given. -/
theorem refill_last_eq (tb : TokenBucket) (now : ℚ) :
    (refillBucket tb now).lastUpdated = now := rfl

/-- A refill with a non-negative rate and a non-decreasing clock keeps
the token count inside `[0, max_tokens]`. -/
theorem refill_preserves_inv (tb : TokenBucket) (now : ℚ) (hRate : 0 ≤ tb.rate)
    (hNow : tb.lastUpdated ≤ now) (h : Inv tb) : Inv (refillBucket tb now) := by
  obtain ⟨h0, h1⟩ := h
  have hmax : 0 ≤ tb.max_tokens := le_trans h0 h1
  have hel : 0 ≤ (now - tb.lastUpdated) * tb.rate :=
    mul_nonneg (sub_nonneg.mpr hNow) hRate
  constructor
  · rw [refill_tokens_eq_min]
    exact le_min hmax (by linarith)
  · rw [refill_tokens_eq_min, refill_max_eq]
    exact min_le_left _ _

/-- One `Allow` call with a non-negative rate and a non-decreasing
clock keeps the token count inside `[0, max_tokens]`. -/
theorem allow_preserves_inv (tb : TokenBucket) (now : ℚ) (hRate : 0 ≤ tb.rate)
    (hNow : tb.lastUpdated ≤ now) (h : Inv tb) : Inv (Allow tb now).2 := by
  obtain ⟨hr0, hr1⟩ := refill_preserves_inv tb now hRate hNow h
  unfold Allow
  by_cases h1 : 1 ≤ (refillBucket tb now).tokens
  · simp only [h1, if_true]
    exact ⟨by simp; linarith, by simp; linarith⟩
  · simp only [h1, if_false]
    exact ⟨hr0, hr1⟩

/-- A whole `Wait` run over a chronological schedule keeps the token
count inside `[0, max_tokens]`. -/
theorem wait_preserves_inv (sched : List (ℚ × Bool)) :
    ∀ tb : TokenBucket, 0 ≤ tb.rate → Chrono tb.lastUpdated sched → Inv tb →
      Inv (Wait tb sched).2.1 := by
  induction sched with
  | nil => intro tb _ _ h; exact h
  | cons hd tl ih =>
    obtain ⟨now, ev⟩ := hd
    intro tb hRate hCh h
    obtain ⟨hle, hCh'⟩ := hCh
    have hr := refill_preserves_inv tb now hRate hle h
    obtain ⟨hr0, hr1⟩ := hr
    by_cases h1 : 1 ≤ (refillBucket tb now).tokens
    · simp only [Wait, h1, if_true]
      exact ⟨by simp; linarith, by simp; linarith⟩
    · cases ev
      · have hrec := ih (refillBucket tb now) (by rw [refill_rate_eq]; exact hRate)
          (by rw [refill_last_eq]; exact hCh') ⟨hr0, hr1⟩
        rcases hw : Wait (refillBucket tb now) tl with ⟨o, tb2, ds⟩
        rw [hw] at hrec
        simp only [Wait, h1, if_false, hw, Bool.false_eq_true]
        exact hrec
      · simp only [Wait, h1, if_false, if_true]
        exact ⟨hr0, hr1⟩

/-- C2: for buckets built with strictly positive operation count,
period and burst capacity, and a non-decreasing clock, the invariant
`0 ≤ tokens ≤ maxTokens` holds after construction and is preserved by
every `Allow` call and every `Wait` run. -/
theorem tokens_range_invariant :
    (∀ (maxOps perNs maxBucketSize : ℤ) (now : ℚ),
        0 < maxOps → 0 < perNs → 0 < maxBucketSize →
        Inv (NewTokenBucket maxOps perNs maxBucketSize now)) ∧
    (∀ (tb : TokenBucket) (now : ℚ), 0 ≤ tb.rate → tb.lastUpdated ≤ now → Inv tb →
        Inv (Allow tb now).2) ∧
    (∀ (tb : TokenBucket) (sched : List (ℚ × Bool)), 0 ≤ tb.rate →
        Chrono tb.lastUpdated sched → Inv tb → Inv (Wait tb sched).2.1) := by
  refine ⟨?_, allow_preserves_inv, fun tb sched => wait_preserves_inv sched tb⟩
  intro maxOps perNs maxBucketSize now _ _ hSize
  constructor
  · show (0 : ℚ) ≤ (maxBucketSize : ℚ)
    exact_mod_cast hSize.le
  · show ((maxBucketSize : ℤ) : ℚ) ≤ ((maxBucketSize : ℤ) : ℚ)
    exact le_refl _

/-- Witness for C2: the invariant holds for a freshly built bucket, is
kept by an `Allow` call on `tbTwo`, and by a two-iteration `Wait` run
on `tbLow`. -/
theorem tokens_range_invariant_witness :
    Inv (NewTokenBucket 10 1000000000 5 0) ∧
    Inv (Allow tbTwo 1).2 ∧
    Inv (Wait tbLow [(0, false), (1, true)]).2.1 :=
  ⟨tokens_range_invariant.1 10 1000000000 5 0 (by norm_num) (by norm_num) (by norm_num),
   tokens_range_invariant.2.1 tbTwo 1 (by norm_num [tbTwo]) (by norm_num [tbTwo])
     (by constructor <;> norm_num [tbTwo]),
   tokens_range_invariant.2.2 tbLow [(0, false), (1, true)] (by norm_num [tbLow])
     (by refine ⟨by norm_num [tbLow], by norm_num, trivial⟩)
     (by constructor <;> norm_num [tbLow])⟩

/-- With a zero elapsed time on every call and an integer token count
`n ≤ max_tokens`, a run of `k` back-to-back `Allow` calls admits the
first `min k n` and refuses the rest. -/
theorem allowN_exact_int (now : ℚ) :
    ∀ (k n : ℕ) (tb : TokenBucket), tb.lastUpdated = now → tb.tokens = (n : ℚ) →
      (n : ℚ) ≤ tb.max_tokens →
      allowN tb now k = List.replicate (min k n) true ++ List.replicate (k - n) false := by
  intro k
  induction k with
  | zero => intro n tb _ _ _; simp [allowN]
  | succ k ih =>
    intro n tb h1 h2 h3
    have hr : refillBucket tb now = { tb with tokens := (n : ℚ), lastUpdated := now } := by
      simp only [refillBucket, h1, sub_self, zero_mul, add_zero, h2]
      rw [if_neg (not_lt.mpr h3)]
    cases n with
    | zero =>
      have hA : Allow tb now = (false, { tb with tokens := ((0 : ℕ) : ℚ), lastUpdated := now }) := by
        rw [Allow, hr]
        norm_num
      have hrec := ih 0 { tb with tokens := ((0 : ℕ) : ℚ), lastUpdated := now } rfl rfl h3
      simp only [Nat.cast_zero] at hA hrec
      simp [allowN, hA, hrec, List.replicate_succ]
    | succ m =>
      have hpos : (1 : ℚ) ≤ ((m + 1 : ℕ) : ℚ) := by exact_mod_cast Nat.succ_le_succ m.zero_le
      have hA : Allow tb now = (true, { tb with tokens := ((m : ℕ) : ℚ), lastUpdated := now }) := by
        rw [Allow, hr]
        rw [if_pos (by simpa using hpos)]
        simp
      have hm : ((m : ℕ) : ℚ) ≤ tb.max_tokens :=
        le_trans (by exact_mod_cast Nat.le_succ m) h3
      have hrec := ih m { tb with tokens := ((m : ℕ) : ℚ), lastUpdated := now } rfl rfl hm
      simp [allowN, hA, hrec, Nat.succ_min_succ, Nat.succ_sub_succ, List.replicate_succ]

/-- C5: with strictly positive ops, period and capacity `C`, and no
time elapsing between calls, the first `C` `Allow` calls return `true`
and the `(C+1)`-th returns `false`. -/
theorem first_capacity_allows (maxOps perNs : ℤ) (C : ℕ) (now : ℚ)
    (hOps : 0 < maxOps) (hPer : 0 < perNs) (hC : 0 < C) :
    allowN (NewTokenBucket maxOps perNs (C : ℤ) now) now (C + 1)
      = List.replicate C true ++ [false] := by
  have h := allowN_exact_int now (C + 1) C (NewTokenBucket maxOps perNs (C : ℤ) now) rfl
    (by simp [NewTokenBucket]) (by simp [NewTokenBucket])
  have hsub : C + 1 - C = 1 := by omega
  rw [h, Nat.min_eq_right (Nat.le_succ C), hsub]
  rfl

/-- Witness for C5: capacity 2 admits exactly twice then refuses. -/
theorem first_capacity_allows_witness :
    allowN (NewTokenBucket 10 1000000000 ((2 : ℕ) : ℤ) 0) 0 3 = [true, true, false] := by
  have h := first_capacity_allows 10 1000000000 2 0 (by norm_num) (by norm_num) (by norm_num)
  simpa using h

/-- C9: with the mutex making each `Allow` atomic, any interleaving of
concurrent callers is a sequence of `Allow` steps; against a bucket
holding exactly `N` tokens with no refill in the window (all calls at
one clock value), any `m ≥ N` total calls yield exactly `N` `true`
results — no token double-spent, none lost. -/
theorem concurrent_allow_exact_total (N m : ℕ) (tb : TokenBucket) (now : ℚ)
    (hLast : tb.lastUpdated = now) (hTok : tb.tokens = (N : ℚ))
    (hMax : (N : ℚ) ≤ tb.max_tokens) (hm : N ≤ m) :
    (allowN tb now m).count true = N := by
  rw [allowN_exact_int now m N tb hLast hTok hMax]
  simp [List.count_append, List.count_replicate, Nat.min_eq_right hm]

/-- Witness for C9: 5 calls against 2 tokens produce exactly 2
admissions. -/
theorem concurrent_allow_exact_total_witness :
    (allowN tbTwo 0 5).count true = 2 :=
  concurrent_allow_exact_total 2 5 tbTwo 0 rfl (by norm_num [tbTwo])
    (by norm_num [tbTwo]) (by norm_num)

/-- C4: whenever a `Wait` run ends on the cancellation path, the final
bucket state is exactly a chain of bare refill steps over some prefix
of the schedule's clock readings — no token was consumed — and the
returned token count is the refilled value, still below `1.0`. -/
theorem wait_cancelled_consumes_nothing (tb : TokenBucket) (sched : List (ℚ × Bool))
    (h : (Wait tb sched).1 = WaitOutcome.cancelled) :
    ∃ n : ℕ, 0 < n ∧
      (Wait tb sched).2.1 = refillOnly tb ((sched.take n).map Prod.fst) ∧
      (Wait tb sched).2.1.tokens < 1 := by
  induction sched generalizing tb with
  | nil => simp [Wait] at h
  | cons hd tl ih =>
    obtain ⟨now, ev⟩ := hd
    by_cases h1 : 1 ≤ (refillBucket tb now).tokens
    · simp [Wait, h1] at h
    · cases ev
      · rcases hw : Wait (refillBucket tb now) tl with ⟨o, tb2, ds⟩
        have ho : o = WaitOutcome.cancelled := by
          have := h
          simp only [Wait, h1, if_false, hw, Bool.false_eq_true] at this
          exact this
        obtain ⟨n, hn, heq, hlt⟩ := ih (refillBucket tb now) (by rw [hw]; exact ho)
        rw [hw] at heq hlt
        refine ⟨n + 1, Nat.succ_pos n, ?_, ?_⟩
        · simp only [Wait, h1, if_false, hw, Bool.false_eq_true, List.take_succ_cons,
            List.map_cons, refillOnly]
          exact heq
        · simp only [Wait, h1, if_false, hw, Bool.false_eq_true]
          exact hlt
      · refine ⟨1, Nat.one_pos, ?_, ?_⟩
        · simp [Wait, h1, refillOnly]
        · simp only [Wait, h1, if_false, if_true]
          exact not_le.mp h1

/-- Witness for C4: a cancelled one-iteration `Wait` on a bucket with
half a token returns the bare refilled state with its sub-unit count. -/
theorem wait_cancelled_consumes_nothing_witness :
    (Wait tbLow [(0, true)]).1 = WaitOutcome.cancelled ∧
    ∃ n : ℕ, 0 < n ∧
      (Wait tbLow [(0, true)]).2.1 = refillOnly tbLow (([((0 : ℚ), true)].take n).map Prod.fst) ∧
      (Wait tbLow [(0, true)]).2.1.tokens < 1 := by
  have h : (Wait tbLow [(0, true)]).1 = WaitOutcome.cancelled := by
    norm_num [Wait, refillBucket, tbLow]
  exact ⟨h, wait_cancelled_consumes_nothing tbLow [(0, true)] h⟩

/-- C7: any `Wait` iteration that finds the refilled count below `1.0`
computes its sleep as `tokensNeeded = 1.0 - tokens` divided by the
rate, in seconds scaled to nanoseconds (the platform duration unit)
and truncated, before suspending. -/
theorem wait_sleep_duration_formula (tb : TokenBucket) (now : ℚ) (ev : Bool)
    (rest : List (ℚ × Bool)) (h : (refillBucket tb now).tokens < 1) :
    ((Wait tb ((now, ev) :: rest)).2.2).head?
      = some (goTrunc ((1 - (refillBucket tb now).tokens) / tb.rate * 1000000000)) := by
  have h1 : ¬ 1 ≤ (refillBucket tb now).tokens := not_le.mpr h
  rcases hw : Wait (refillBucket tb now) rest with ⟨o, tb2, ds⟩
  cases ev <;> simp [Wait, h1, hw, waitDurationNs, refill_rate_eq]

/-- Witness for C7: with half a token, the first sleep is
`(1 - 1/2) / 1` seconds, i.e. `500000000` ns. -/
theorem wait_sleep_duration_formula_witness :
    ((Wait tbLow [((0 : ℚ), false)]).2.2).head?
      = some (goTrunc ((1 - (refillBucket tbLow 0).tokens) / tbLow.rate * 1000000000)) :=
  wait_sleep_duration_formula tbLow 0 false [] (by norm_num [refillBucket, tbLow])

/-- The property C6 asserts of every instance built from misuse
arguments: the rate is neither infinite nor negative. -/
def RateUsable (f : GoFloat) : Prop :=
  f ≠ GoFloat.posInf ∧ f ≠ GoFloat.negInf ∧ f.isNeg = false

/-- C6 counterexample: at the concrete misuse input
`NewTokenBucket(10, 0, 5)` the constructor returns normally (its body
has no failure path) and, under Go float semantics, the instance's
rate is `+Inf` — the claimed guarantee is false as stated. -/
theorem new_token_bucket_zero_period_cex :
    ¬ RateUsable (NewTokenBucketF 10 0 5 0).rate := by
  intro hcontra
  exact hcontra.1 (by norm_num [NewTokenBucketF, goDiv])

/-- C6 amended: `NewTokenBucket` performs no validation and always
returns an instance; with a zero period and positive ops the rate is
`+Inf`, and with a negative period and positive ops it is a negative
finite value — exactly the outcomes the original claim ruled out. -/
theorem new_token_bucket_no_validation (maxOps maxBucketSize : ℤ) (now : ℚ)
    (hOps : 0 < maxOps) :
    (NewTokenBucketF maxOps 0 maxBucketSize now).rate = GoFloat.posInf ∧
    ∀ perNs : ℤ, perNs < 0 →
      ∃ q : ℚ, q < 0 ∧
        (NewTokenBucketF maxOps perNs maxBucketSize now).rate = GoFloat.fin q := by
  have hOpsQ : (0 : ℚ) < (maxOps : ℚ) := by exact_mod_cast hOps
  constructor
  · simp [NewTokenBucketF, goDiv, ne_of_gt hOpsQ, hOpsQ]
  · intro perNs hPer
    have hb : ((perNs : ℚ) / 1000000000) < 0 := by
      apply div_neg_of_neg_of_pos
      · exact_mod_cast hPer
      · norm_num
    refine ⟨(maxOps : ℚ) / ((perNs : ℚ) / 1000000000), ?_, ?_⟩
    · exact div_neg_of_pos_of_neg hOpsQ hb
    · simp [NewTokenBucketF, goDiv, ne_of_lt hb]

/-- Witness for the amended C6: `NewTokenBucket(10, 0, 5)` has rate
`+Inf` and `NewTokenBucket(10, -2s, 5)` a negative finite rate. -/
theorem new_token_bucket_no_validation_witness :
    (NewTokenBucketF 10 0 5 0).rate = GoFloat.posInf ∧
    ∃ q : ℚ, q < 0 ∧ (NewTokenBucketF 10 (-2000000000) 5 0).rate = GoFloat.fin q :=
  ⟨(new_token_bucket_no_validation 10 5 0 (by norm_num)).1,
   (new_token_bucket_no_validation 10 5 0 (by norm_num)).2 (-2000000000) (by norm_num)⟩

end RateLimiter
